import Mathlib

/-!
Verification of the sushe video pipeline (internal/downloader/downloader.go and
internal/bot/bot.go) against its natural-language specification.

The Go code is shallowly embedded: pure functions become Lean functions on
exact arithmetic (Int for byte counts and nanosecond times, Rat for the
float64 percent and duration arithmetic, modelled exactly), stateful stages
become functions from an explicit record of the external world (subprocess
exit status, globbed files, stat results) to an Except value paired with a
trace of the externally visible effects.
-/

/-! ### String helpers, embedded from the Go standard library calls used by the source.
strings.HasPrefix, strings.Contains, strings.TrimSpace and strings.ToLower are
modelled character-wise on the underlying character list (Go iterates runes; all
comparisons in this repository involve only ASCII constants). -/

/-- Embeds strings.HasPrefix: the first list is the candidate prefix. -/
def hasPrefixChars : List Char → List Char → Bool
  | [], _ => true
  | _ :: _, [] => false
  | p :: ps, c :: cs => p == c && hasPrefixChars ps cs

/-- Embeds strings.HasPrefix on strings: hasPrefixGo s pre is true when pre is a prefix of s. -/
def hasPrefixGo (s pre : String) : Bool :=
  hasPrefixChars pre.data s.data

/-- Embeds strings.Contains: containsChars sub s is true when sub occurs contiguously in s. -/
def containsChars (sub : List Char) : List Char → Bool
  | [] => sub.isEmpty
  | c :: cs => hasPrefixChars sub (c :: cs) || containsChars sub cs

/-- Whitespace set of strings.TrimSpace restricted to the ASCII space characters
(space, tab, newline, vertical tab, form feed, carriage return). -/
def isSpaceGo (c : Char) : Bool :=
  c == ' ' || c == '\t' || c == '\n' || c == Char.ofNat 11 || c == Char.ofNat 12 || c == '\r'

/-- Embeds strings.TrimSpace: drop whitespace from both ends. -/
def trimSpaceGo (s : String) : String :=
  ⟨((s.data.dropWhile isSpaceGo).reverse.dropWhile isSpaceGo).reverse⟩

/-- Embeds strings.ToLower: lower-case every character. -/
def toLowerGo (s : String) : String :=
  ⟨s.data.map Char.toLower⟩

/-! ### Constants from downloader.go -/

/-- Local Bot API server allows up to 2GB uploads (bytes). -/
def MaxFileSize : ℤ := 2000 * 1024 * 1024

/-- Target size for splits, 1.9GB in bytes. -/
def MaxUploadSize : ℤ := 1900 * 1024 * 1024

/-! ### Media inspector predicates (downloader.go) -/

/-- IsH264Compatible returns true if the codec is H.264/AVC (Telegram compatible).
Embeds: lower-case the identifier, then compare with the three accepted spellings. -/
def IsH264Compatible (codec : String) : Bool :=
  let c := toLowerGo codec
  c == "h264" || c == "avc" || c == "avc1"

/-- A string s is a letter-case variant of a lower-case template t when the two
have the same length and each character of s lower-cases to the corresponding
character of t. -/
def CaseVariant (s t : String) : Prop :=
  List.Forall₂ (fun a b => Char.toLower a = b) s.data t.data

/-! ### URL validation (downloader.go) -/

/-- The supported-domains list from IsValidURL. -/
def supportedDomains : List String :=
  ["youtube.com", "youtu.be",
   "twitter.com", "x.com",
   "tiktok.com",
   "instagram.com",
   "facebook.com", "fb.watch",
   "vimeo.com",
   "dailymotion.com",
   "twitch.tv",
   "reddit.com", "v.redd.it",
   "streamable.com",
   "imgur.com"]

/-- IsValidURL checks if the string looks like a valid video URL.
Embeds the source exactly: trim, reject non-http(s) prefixes, then scan the
domain list returning true on a match, and return true after the loop as well. -/
def IsValidURL (s : String) : Bool :=
  let t := trimSpaceGo s
  if !hasPrefixGo t "http://" && !hasPrefixGo t "https://" then false
  else if supportedDomains.any (fun d => containsChars d.data t.data) then true
  else true

/-! ### Split arithmetic (downloader.go) -/

/-- NeedsSplit returns true if the file is larger than MaxUploadSize. -/
def NeedsSplit (fileSize : ℤ) : Bool :=
  fileSize > MaxUploadSize

/-- CalculateNumParts returns the number of parts needed for splitting.
The source computes int(math.Ceil(float64(fileSize) / float64(MaxUploadSize)));
this is modelled with exact rational arithmetic as the integer ceiling. -/
def CalculateNumParts (fileSize : ℤ) : ℤ :=
  ⌈(fileSize : ℚ) / (MaxUploadSize : ℚ)⌉

/-! ### Progress percent and part ordinal arithmetic of the ffmpeg progress
parsers in ReencodeToH264 and SplitVideo (downloader.go). The float64 percent
computation is modelled over exact rational magnitudes extended with the IEEE
754 special values that division can produce: a zero divisor yields an
infinity or, for the 0/0 case, NaN, and every ordered comparison involving
NaN is false. Rounding of finite intermediate results is not modelled; the
zero-duration behaviour the claims turn on is decided entirely by the
special values. -/

/-- Elapsed seconds reconstructed from a parsed time=HH:MM:SS.cc marker:
float64(hours*3600+mins*60) + secs. -/
def elapsedSeconds (hours mins : ℕ) (secs : ℚ) : ℚ :=
  ((hours * 3600 + mins * 60 : ℕ) : ℚ) + secs

/-- Value of a float64 expression in the percent computation: a finite value
carried as its exact rational magnitude, one of the two infinities, or NaN. -/
inductive FloatQ where
  | fin (q : ℚ)
  | posInf
  | negInf
  | nan
deriving DecidableEq

/-- IEEE 754 division of two finite values: finite quotient for a nonzero
divisor; for a zero divisor, an infinity carrying the dividend's sign, and
NaN for the 0/0 case. -/
def fdivQ (t d : ℚ) : FloatQ :=
  if d = 0 then
    if 0 < t then .posInf else if t < 0 then .negInf else .nan
  else .fin (t / d)

/-- IEEE 754 multiplication of the quotient by the positive literal 100:
infinities and NaN are absorbing. -/
def fmul100 : FloatQ → FloatQ
  | .fin q => .fin (q * 100)
  | .posInf => .posInf
  | .negInf => .negInf
  | .nan => .nan

/-- The comparison percent > 100 of the clamp: true for positive infinity,
false for NaN (every ordered comparison with NaN is false). -/
def fgt100 : FloatQ → Bool
  | .fin q => q > 100
  | .posInf => true
  | .negInf => false
  | .nan => false

/-- Percent emitted by both encoder progress parsers over the float model:
percent := currentTime / duration * 100, then the clamp replaces percent by
100 when the comparison percent > 100 holds — which it does not for NaN, so
NaN passes through the clamp unchanged. -/
def encodePercentF (currentTime duration : ℚ) : FloatQ :=
  let percent := fmul100 (fdivQ currentTime duration)
  if fgt100 percent then .fin 100 else percent

/-- An emitted percent value lies in the interval from 0 to 100: it is a
finite value within those bounds. -/
def percentInRange (v : FloatQ) : Prop :=
  ∃ q : ℚ, v = FloatQ.fin q ∧ 0 ≤ q ∧ q ≤ 100

/-- Go integer truncation of a rational value (the int(...) conversion,
which rounds toward zero). -/
def truncQ (x : ℚ) : ℤ :=
  if 0 ≤ x then ⌊x⌋ else ⌈x⌉

/-- Part ordinal emitted by the SplitVideo progress parser:
partNum := int(currentTime/segmentDuration) + 1, clamped above at numParts. -/
def splitPartNum (currentTime duration : ℚ) (numParts : ℤ) : ℤ :=
  let segmentDuration := duration / (numParts : ℚ)
  let partNum := truncQ (currentTime / segmentDuration) + 1
  if partNum > numParts then numParts else partNum

/-! ### Data model (downloader.go) -/

/-- MediaInfo contains video metadata from ffprobe. -/
structure MediaInfo where
  Duration : ℚ
  Bitrate : ℤ
  FileSize : ℤ
  Width : ℤ
  Height : ℤ
deriving DecidableEq

/-- PartInfo describes a split video part. -/
structure PartInfo where
  FilePath : String
  PartNum : ℕ
  FileSize : ℤ
deriving DecidableEq

/-! ### SplitVideo (downloader.go), embedded as a function of the media info
and of a record of the external world: the encoder exit status, the files
matched by the output glob (filepath.Glob returns them sorted), and the
outcome of stat on each file. The effect trace records the invocation of the
external encoder together with the segment arguments it was given; the error
branch taken before the invocation leaves the trace empty. -/

/-- Error kinds of SplitVideo. -/
inductive SplitErr where
  | invalidDuration
  | ffmpegFailed
  | noPartsFound
  | statAllFailed
deriving DecidableEq

/-- Arguments of the single external encoder invocation of SplitVideo. -/
structure SplitCmd where
  numParts : ℤ
  segmentTime : ℚ
deriving DecidableEq

/-- External interactions observed by one SplitVideo run. -/
structure SplitWorld where
  ffmpegOk : Bool
  globFiles : List String
  statResult : String → Option ℤ

/-- The assembly loop of SplitVideo: for i, partFile := range partFiles,
skip the file when stat fails, otherwise append PartInfo with ordinal i+1;
the index i advances even across skipped files, exactly as a Go range index. -/
def mkPartsAux (stat : String → Option ℤ) : ℕ → List String → List PartInfo
  | _, [] => []
  | i, f :: fs =>
    match stat f with
    | none => mkPartsAux stat (i + 1) fs
    | some sz => ⟨f, i + 1, sz⟩ :: mkPartsAux stat (i + 1) fs

/-- Assemble the PartInfo list from the globbed files, starting at index 0. -/
def mkParts (stat : String → Option ℤ) (files : List String) : List PartInfo :=
  mkPartsAux stat 0 files

/-- SplitVideo splits a video into parts of approximately MaxUploadSize.
Returns the result together with the trace of the encoder invocation:
none means the external encoder was never started (and the segment duration
was never computed, so no division by the duration took place). -/
def splitVideoRun (info : MediaInfo) (w : SplitWorld) :
    Except SplitErr (List PartInfo) × Option SplitCmd :=
  if info.Duration ≤ 0 then (.error .invalidDuration, none)
  else
    let numParts := CalculateNumParts info.FileSize
    let cmd : SplitCmd := ⟨numParts, info.Duration / (numParts : ℚ)⟩
    if w.ffmpegOk = false then (.error .ffmpegFailed, some cmd)
    else if w.globFiles = [] then (.error .noPartsFound, some cmd)
    else
      let parts := mkParts w.statResult w.globFiles
      if parts = [] then (.error .statAllFailed, some cmd)
      else (.ok parts, some cmd)

/-! ### DownloadWithProgress (downloader.go), embedded as a function of a
record of its external interactions after the scratch directory has been
created successfully. The second component of the result is true exactly when
os.RemoveAll was called on the scratch directory before returning. -/

/-- Error kinds of DownloadWithProgress (the tool failure also covers the
bounded-timeout abort, which surfaces as a failed command). -/
inductive DlErr where
  | toolFailed
  | noFileDownloaded
  | statFailed
  | reencodeFailed
  | restatFailed
deriving DecidableEq

/-- External interactions observed by one DownloadWithProgress run, after
the scratch directory was created: yt-dlp exit status (false also on
timeout), the files found in the scratch directory, the stat outcome of the
downloaded file, the probed codec (none when GetVideoCodec fails, in which
case the source substitutes "unknown"), the re-encode exit status, and the
stat outcome of the re-encoded file. -/
structure DlWorld where
  toolOk : Bool
  globFiles : List String
  statOk : Bool
  codecProbe : Option String
  reencodeOk : Bool
  restatOk : Bool

/-- The control skeleton of DownloadWithProgress from the point after
os.MkdirAll succeeded: every failure path calls os.RemoveAll on the scratch
directory (second component true) before returning its error. -/
def downloadRun (w : DlWorld) : Except DlErr Unit × Bool :=
  if w.toolOk = false then (.error .toolFailed, true)
  else if w.globFiles = [] then (.error .noFileDownloaded, true)
  else if w.statOk = false then (.error .statFailed, true)
  else
    let codec := match w.codecProbe with
      | none => "unknown"
      | some c => c
    if IsH264Compatible codec then (.ok (), false)
    else if w.reencodeOk = false then (.error .reencodeFailed, true)
    else if w.restatOk = false then (.error .restatFailed, true)
    else (.ok (), false)

/-! ### Scratch directory naming (downloader.go).
DownloadWithProgress computes downloadID := fmt.Sprintf("%d", time.Now().UnixNano())
and workDir := filepath.Join(d.downloadDir, downloadID) with downloadDir
"/tmp/sushe". The name is a pure function of the observed nanosecond
timestamp and of nothing else. -/

/-- Decimal digit characters of a natural number, most significant first,
with the Sprintf convention that zero prints as the single digit 0. -/
def natDecimalChars (n : ℕ) : List Char :=
  if n = 0 then ['0'] else ((Nat.digits 10 n).map Nat.digitChar).reverse

/-- Embeds fmt.Sprintf with the %d verb on an int64 value. -/
def intDecimalStr (t : ℤ) : String :=
  if t < 0 then ⟨'-' :: natDecimalChars t.natAbs⟩ else ⟨natDecimalChars t.natAbs⟩

/-- Scratch directory path of a job that observed start timestamp t
(nanoseconds): filepath.Join inserts the path separator. -/
def workDir (t : ℤ) : String :=
  "/tmp/sushe/" ++ intDecimalStr t

/-- A job start: the nanosecond timestamp the job observes from
time.Now().UnixNano(), and a goroutine identifier that distinguishes the
job from every other concurrently started job. Two concurrent jobs are
distinct jobs but may observe the same clock value. -/
structure JobStart where
  startNanos : ℤ
  goroutineId : ℕ
deriving DecidableEq

/-- The scratch directory a job acquires depends only on its observed
timestamp, exactly as in the source. -/
def jobWorkDir (j : JobStart) : String :=
  workDir j.startNanos

/-! ### Progress rate limiter (bot.go, processURL).
State: the time of the last forwarded update and its percent value, both
starting at their zero values. The decision reads the current time, and the
event is dropped when the interval since the last update is below the
minimum, the percent is below 100, and the percent advance since the last
update is below the minimum delta; otherwise the event is forwarded and the
state is updated. Times are in nanoseconds. -/

/-- Minimum interval between forwarded updates: 2 seconds in nanoseconds. -/
def minUpdateInterval : ℤ := 2 * 1000000000

/-- Minimum percent advance that forces a forward inside the interval. -/
def minPercentDelta : ℚ := 5

/-- Rate limiter state per job. -/
structure LimiterState where
  lastUpdate : ℤ
  lastPercent : ℚ
deriving DecidableEq

/-- Decision of the progress callback in processURL: mirrors the nested
conditionals of the source, returning true exactly when the event is
forwarded to the messaging sink. -/
def shouldForward (st : LimiterState) (now : ℤ) (percent : ℚ) : Bool :=
  if now - st.lastUpdate < minUpdateInterval ∧ percent < 100 then
    if percent - st.lastPercent < minPercentDelta then false
    else true
  else true

/-- Run the rate limiter over a sequence of (time, percent) events, returning
the subsequence that is forwarded; a forwarded event updates the state to its
own time and percent (the source does so when the downstream edit succeeds). -/
def runLimiter (st : LimiterState) : List (ℤ × ℚ) → List (ℤ × ℚ)
  | [] => []
  | (t, p) :: evs =>
    if shouldForward st t p then (t, p) :: runLimiter ⟨t, p⟩ evs
    else runLimiter st evs

/-! ### Helper lemmas -/

/-- Mapping a function over a list equals a target list exactly when the two
lists are pointwise related by the graph of the function. -/
lemma map_eq_iff_forall₂ (f : Char → Char) :
    ∀ (l₁ l₂ : List Char), l₁.map f = l₂ ↔ List.Forall₂ (fun a b => f a = b) l₁ l₂ := by
  intro l₁
  induction l₁ with
  | nil => intro l₂; cases l₂ <;> simp
  | cons a l ih => intro l₂; cases l₂ <;> simp [ih]

/-! ### C10 -/

/-- C10: IsValidURL returns true exactly when the trimmed string begins with
one of the two scheme markers; the supported-domains list never affects the
result, so no well-formed http(s) URL is rejected by validation. -/
theorem C10_isValidURL_prefix_only (s : String) :
    IsValidURL s =
      (hasPrefixGo (trimSpaceGo s) "http://" || hasPrefixGo (trimSpaceGo s) "https://") := by
  unfold IsValidURL
  cases h1 : hasPrefixGo (trimSpaceGo s) "http://" <;>
    cases h2 : hasPrefixGo (trimSpaceGo s) "https://" <;>
      simp [h1, h2]

/-! ### C6 -/

/-- C6: the compatibility predicate accepts exactly the letter-case variants
of h264, avc and avc1, and rejects every other string, the empty string
included. -/
theorem C6_h264_predicate :
    (∀ s : String, IsH264Compatible s = true ↔
      (CaseVariant s "h264" ∨ CaseVariant s "avc" ∨ CaseVariant s "avc1")) ∧
    IsH264Compatible "" = false := by
  constructor
  · intro s
    unfold IsH264Compatible CaseVariant toLowerGo
    simp only [Bool.or_eq_true, beq_iff_eq, String.ext_iff, map_eq_iff_forall₂, or_assoc]
  · decide

/-! ### C5 -/

/-- C5: for every positive file size the computed part count is the ceiling
of size over MaxUploadSize; at exactly MaxUploadSize one part is needed and
one byte above it two parts are needed. -/
theorem C5_calculateNumParts_ceil (S : ℤ) (hS : 0 < S) :
    CalculateNumParts S = ⌈(S : ℚ) / (MaxUploadSize : ℚ)⌉ ∧
      CalculateNumParts MaxUploadSize = 1 ∧
      CalculateNumParts (MaxUploadSize + 1) = 2 := by
  refine ⟨rfl, ?_, ?_⟩
  · unfold CalculateNumParts MaxUploadSize
    norm_num
  · unfold CalculateNumParts MaxUploadSize
    rw [Int.ceil_eq_iff]
    constructor <;> norm_num

/-- Witness for C5 at the concrete size 3000000000. -/
theorem C5_witness :
    (0 : ℤ) < 3000000000 ∧
      (CalculateNumParts 3000000000 = ⌈((3000000000 : ℤ) : ℚ) / (MaxUploadSize : ℚ)⌉ ∧
        CalculateNumParts MaxUploadSize = 1 ∧
        CalculateNumParts (MaxUploadSize + 1) = 2) :=
  ⟨by norm_num, C5_calculateNumParts_ceil 3000000000 (by norm_num)⟩

/-! ### C1 -/

/-- C1: the rate limiter forwards an event exactly when the minimum interval
has elapsed since the last forwarded update, or the percent reached 100, or
the percent advanced by at least the minimum delta since the last forwarded
update; and over any event sequence the forwarded events form a subsequence
of the input (dropped events are never queued or batched). -/
theorem C1_rate_limiter_policy :
    (∀ (st : LimiterState) (now : ℤ) (percent : ℚ),
        shouldForward st now percent = true ↔
          (minUpdateInterval ≤ now - st.lastUpdate ∨ 100 ≤ percent ∨
            minPercentDelta ≤ percent - st.lastPercent)) ∧
    (∀ (st : LimiterState) (evs : List (ℤ × ℚ)), List.Sublist (runLimiter st evs) evs) := by
  constructor
  · intro st now percent
    unfold shouldForward
    by_cases h1 : now - st.lastUpdate < minUpdateInterval ∧ percent < 100
    · by_cases h2 : percent - st.lastPercent < minPercentDelta
      · rw [if_pos h1, if_pos h2]
        simp only [Bool.false_eq_true, false_iff]
        push_neg
        exact ⟨h1.1, h1.2, h2⟩
      · rw [if_pos h1, if_neg h2]
        simp only [true_iff]
        exact Or.inr (Or.inr (not_lt.mp h2))
    · rw [if_neg h1]
      simp only [true_iff]
      rcases not_and_or.mp h1 with h | h
      · exact Or.inl (not_lt.mp h)
      · exact Or.inr (Or.inl (not_lt.mp h))
  · intro st evs
    induction evs generalizing st with
    | nil => simp [runLimiter]
    | cons e evs ih =>
      obtain ⟨t, p⟩ := e
      unfold runLimiter
      split
      · exact List.Sublist.cons₂ (t, p) (ih ⟨t, p⟩)
      · exact List.Sublist.cons (t, p) (ih st)

/-! ### C3 -/

/-- C3 as stated is violated at a reported duration of zero with elapsed
zero, a combination ReencodeToH264 can reach: GetMediaInfo ignores the
duration parse failure and returns duration 0 without error, the transcode
stage has no duration guard, and the encoder's first progress marker reads
time=00:00:00.00. The float division 0/0 is NaN, the clamp comparison is
false for NaN, and the emitted percent is NaN, which lies outside the
interval from 0 to 100. -/
theorem C3_counterexample :
    encodePercentF (elapsedSeconds 0 0 0) 0 = FloatQ.nan ∧
      ¬ percentInRange (encodePercentF (elapsedSeconds 0 0 0) 0) := by
  have hnan : encodePercentF (elapsedSeconds 0 0 0) 0 = FloatQ.nan := by
    norm_num [encodePercentF, elapsedSeconds, fdivQ, fmul100, fgt100]
  refine ⟨hnan, ?_⟩
  rintro ⟨q, hq, -, -⟩
  rw [hnan] at hq
  cases hq

/-- C3 amended: with a positive reported duration the emitted percent is a
finite value in the interval from 0 to 100 for every parsed elapsed time,
elapsed beyond the duration included; at a zero reported duration a positive
elapsed time divides to positive infinity, which the clamp maps to 100,
while elapsed zero yields NaN, which escapes the clamp. -/
theorem C3_percent_in_bounds_amended :
    (∀ (hours mins : ℕ) (secs duration : ℚ), 0 ≤ secs → 0 < duration →
        percentInRange (encodePercentF (elapsedSeconds hours mins secs) duration)) ∧
    (∀ t : ℚ, 0 < t → encodePercentF t 0 = FloatQ.fin 100) := by
  constructor
  · intro hours mins secs duration hs hd
    have ht : 0 ≤ elapsedSeconds hours mins secs := by
      unfold elapsedSeconds
      positivity
    have hd0 : duration ≠ 0 := ne_of_gt hd
    have hq0 : 0 ≤ elapsedSeconds hours mins secs / duration * 100 := by
      have := div_nonneg ht hd.le
      positivity
    simp only [encodePercentF, fdivQ, if_neg hd0, fmul100, fgt100]
    split
    · exact ⟨100, rfl, by norm_num, le_refl 100⟩
    · rename_i h
      refine ⟨elapsedSeconds hours mins secs / duration * 100, rfl, hq0, ?_⟩
      simpa using h
  · intro t ht
    simp only [encodePercentF, fdivQ, if_pos rfl, if_pos ht, fmul100, fgt100]
    rfl

/-- Witness for the amended C3: elapsed 90 seconds against a 20 second
duration exercises the overshoot clamp, and elapsed 5 seconds against a zero
duration exercises the infinity branch. -/
theorem C3_witness :
    ((0 : ℚ) ≤ 30 ∧ (0 : ℚ) < 20 ∧
      percentInRange (encodePercentF (elapsedSeconds 0 1 30) 20)) ∧
    ((0 : ℚ) < 5 ∧ encodePercentF 5 0 = FloatQ.fin 100) :=
  ⟨⟨by norm_num, by norm_num,
      C3_percent_in_bounds_amended.1 0 1 30 20 (by norm_num) (by norm_num)⟩,
    ⟨by norm_num, C3_percent_in_bounds_amended.2 5 (by norm_num)⟩⟩

/-! ### C4 -/

/-- C4: with positive duration D split into N parts, the emitted part ordinal
equals the clamp of floor of elapsed over segment duration plus one into the
interval from 1 to N, for every nonnegative elapsed time, those exceeding D
included; in particular the ordinal never exceeds N. -/
theorem C4_part_ordinal (T D : ℚ) (N : ℤ) (hT : 0 ≤ T) (hD : 0 < D) (hN : 1 ≤ N) :
    splitPartNum T D N = min (max (⌊T / (D / (N : ℚ))⌋ + 1) 1) N := by
  have hNQ : (0 : ℚ) < (N : ℚ) := by exact_mod_cast lt_of_lt_of_le zero_lt_one hN
  have hseg : (0 : ℚ) < D / (N : ℚ) := div_pos hD hNQ
  have hq : 0 ≤ T / (D / (N : ℚ)) := div_nonneg hT hseg.le
  have hfl : 0 ≤ ⌊T / (D / (N : ℚ))⌋ := Int.floor_nonneg.mpr hq
  simp only [splitPartNum, truncQ, if_pos hq]
  split <;> omega

/-- Witness for C4 with duration 10 and 3 parts at elapsed 12, past the end
of the source, where the unclamped ordinal would be 4. -/
theorem C4_witness :
    (0 : ℚ) ≤ 12 ∧ (0 : ℚ) < 10 ∧ (1 : ℤ) ≤ 3 ∧
      splitPartNum 12 10 3 = min (max (⌊(12 : ℚ) / (10 / ((3 : ℤ) : ℚ))⌋ + 1) 1) 3 :=
  ⟨by norm_num, by norm_num, by norm_num,
    C4_part_ordinal 12 10 3 (by norm_num) (by norm_num) (by norm_num)⟩

/-! ### C7 -/

/-- C7: when the reported duration is zero or negative, SplitVideo returns
the validation error with no encoder invocation recorded, so the external
tool is never started and the segment duration is never computed. -/
theorem C7_split_fail_fast (info : MediaInfo) (w : SplitWorld) (h : info.Duration ≤ 0) :
    splitVideoRun info w = (Except.error SplitErr.invalidDuration, none) := by
  unfold splitVideoRun
  rw [if_pos h]

/-- Witness for C7 at a zero reported duration. -/
theorem C7_witness :
    (MediaInfo.mk 0 0 3000000000 1920 1080).Duration ≤ 0 ∧
      splitVideoRun (MediaInfo.mk 0 0 3000000000 1920 1080)
          ⟨true, ["v_part000.mp4"], fun _ => some 7⟩ =
        (Except.error SplitErr.invalidDuration, none) :=
  ⟨le_refl 0, C7_split_fail_fast _ _ (le_refl 0)⟩

/-! ### C8 -/

/-- C8: every failing run of the acquisition stage after the scratch
directory was created removes the scratch directory before returning its
error, whichever failure it is: tool failure or timeout, no file produced,
stat failure, re-encode failure, or stat failure on the re-encoded file. -/
theorem C8_cleanup_on_failure (w : DlWorld) (e : DlErr) (removed : Bool)
    (h : downloadRun w = (Except.error e, removed)) : removed = true := by
  unfold downloadRun at h
  repeat' split at h
  all_goals try simp_all
  all_goals (split at h <;> simp_all)

/-- Witness for C8 at a failed tool run. -/
theorem C8_witness :
    downloadRun ⟨false, [], true, none, true, true⟩ = (Except.error DlErr.toolFailed, true) ∧
      (true : Bool) = true :=
  ⟨rfl, C8_cleanup_on_failure ⟨false, [], true, none, true, true⟩ DlErr.toolFailed true rfl⟩

/-! ### C9 -/

/-- C9 as stated is violated when stat fails on one produced part: the range
index keeps advancing across the skipped file, so in a successful result of
three globbed parts with the middle stat failing, the second surviving
element carries ordinal 3, not 2. -/
theorem C9_counterexample :
    (splitVideoRun ⟨10, 0, 4000000000, 1920, 1080⟩
        ⟨true, ["v_part000.mp4", "v_part001.mp4", "v_part002.mp4"],
          fun f => if f = "v_part001.mp4" then none else some 100⟩).1 =
      Except.ok [⟨"v_part000.mp4", 1, 100⟩, ⟨"v_part002.mp4", 3, 100⟩] ∧
    (([⟨"v_part000.mp4", 1, 100⟩, ⟨"v_part002.mp4", 3, 100⟩] : List PartInfo).get
        ⟨1, by norm_num⟩).PartNum ≠ 2 := by
  constructor
  · rfl
  · decide

/-- When every stat succeeds, the assembly loop keeps every globbed file, in
order. -/
lemma mkPartsAux_map_filePath (stat : String → Option ℤ) :
    ∀ (files : List String) (i : ℕ), (∀ f ∈ files, (stat f).isSome = true) →
      (mkPartsAux stat i files).map PartInfo.FilePath = files := by
  intro files
  induction files with
  | nil => intro i _; rfl
  | cons f fs ih =>
    intro i hall
    obtain ⟨sz, hsz⟩ := Option.isSome_iff_exists.mp (hall f (by simp))
    unfold mkPartsAux
    rw [hsz]
    simp only [List.map_cons, List.cons.injEq]
    exact ⟨trivial, ih (i + 1) (fun g hg => hall g (by simp [hg]))⟩

/-- When every stat succeeds, the ordinals produced by the assembly loop
starting at index i are the consecutive integers from i+1. -/
lemma mkPartsAux_map_partNum (stat : String → Option ℤ) :
    ∀ (files : List String) (i : ℕ), (∀ f ∈ files, (stat f).isSome = true) →
      (mkPartsAux stat i files).map PartInfo.PartNum = List.range' (i + 1) files.length := by
  intro files
  induction files with
  | nil => intro i _; rfl
  | cons f fs ih =>
    intro i hall
    obtain ⟨sz, hsz⟩ := Option.isSome_iff_exists.mp (hall f (by simp))
    unfold mkPartsAux
    rw [hsz]
    simp only [List.map_cons, List.length_cons, List.range'_succ, List.cons.injEq]
    exact ⟨trivial, by
      rw [ih (i + 1) (fun g hg => hall g (by simp [hg]))]⟩

/-- A list whose ordinal projections are the consecutive integers from s has
the ordinal s + j at every position j. -/
lemma get_partNum_of_map_range' :
    ∀ (l : List PartInfo) (s : ℕ),
      l.map PartInfo.PartNum = List.range' s l.length →
      ∀ (j : ℕ) (hj : j < l.length), (l.get ⟨j, hj⟩).PartNum = s + j := by
  intro l
  induction l with
  | nil => intro s _ j hj; simp at hj
  | cons p l ih =>
    intro s hm j hj
    simp only [List.map_cons, List.length_cons, List.range'_succ, List.cons.injEq] at hm
    cases j with
    | zero => simpa using hm.1
    | succ k =>
      have hk : k < l.length := Nat.lt_of_succ_lt_succ hj
      have := ih (s + 1) hm.2 k hk
      simp only [List.get_cons_succ]
      omega

/-- C9 amended: provided every globbed part file stats successfully, a
successful SplitVideo result lists the parts in the glob's filename order and
the element at position i carries the 1-based ordinal i+1; when a stat fails
mid-list the ordinal counter still advances, so ordinals then reflect
positions in the globbed list rather than in the surviving list. -/
theorem C9_ordinals_match_order (info : MediaInfo) (w : SplitWorld) (parts : List PartInfo)
    (hstat : ∀ f ∈ w.globFiles, (w.statResult f).isSome = true)
    (h : (splitVideoRun info w).1 = Except.ok parts) :
    parts.map PartInfo.FilePath = w.globFiles ∧
      ∀ (i : ℕ) (hi : i < parts.length), (parts.get ⟨i, hi⟩).PartNum = i + 1 := by
  have hparts : parts = mkParts w.statResult w.globFiles := by
    unfold splitVideoRun at h
    repeat' split at h
    all_goals try simp_all
    all_goals (split at h <;> simp_all)
  subst hparts
  have hmapFP : (mkPartsAux w.statResult 0 w.globFiles).map PartInfo.FilePath = w.globFiles :=
    mkPartsAux_map_filePath w.statResult w.globFiles 0 hstat
  have hlen : (mkPartsAux w.statResult 0 w.globFiles).length = w.globFiles.length := by
    have h2 := congrArg List.length hmapFP
    simpa using h2
  refine ⟨hmapFP, ?_⟩
  intro i hi
  have hmapPN : (mkParts w.statResult w.globFiles).map PartInfo.PartNum
      = List.range' 1 (mkParts w.statResult w.globFiles).length := by
    unfold mkParts
    rw [mkPartsAux_map_partNum w.statResult w.globFiles 0 hstat, hlen]
  have hget := get_partNum_of_map_range' (mkParts w.statResult w.globFiles) 1 hmapPN i hi
  omega

/-- Witness for C9 on a run of two parts whose stats both succeed. -/
theorem C9_witness :
    (∀ f ∈ (SplitWorld.mk true ["v_part000.mp4", "v_part001.mp4"] (fun _ => some 7)).globFiles,
        ((SplitWorld.mk true ["v_part000.mp4", "v_part001.mp4"] (fun _ => some 7)).statResult f).isSome
          = true) ∧
      (splitVideoRun ⟨10, 0, 4000000000, 1920, 1080⟩
          (SplitWorld.mk true ["v_part000.mp4", "v_part001.mp4"] (fun _ => some 7))).1 =
        Except.ok [⟨"v_part000.mp4", 1, 7⟩, ⟨"v_part001.mp4", 2, 7⟩] ∧
      (([⟨"v_part000.mp4", 1, 7⟩, ⟨"v_part001.mp4", 2, 7⟩] : List PartInfo).map PartInfo.FilePath
          = ["v_part000.mp4", "v_part001.mp4"] ∧
        ∀ (i : ℕ) (hi : i < ([⟨"v_part000.mp4", 1, 7⟩, ⟨"v_part001.mp4", 2, 7⟩] :
            List PartInfo).length),
          (([⟨"v_part000.mp4", 1, 7⟩, ⟨"v_part001.mp4", 2, 7⟩] : List PartInfo).get
              ⟨i, hi⟩).PartNum = i + 1) :=
  ⟨fun f _ => rfl, rfl,
    C9_ordinals_match_order ⟨10, 0, 4000000000, 1920, 1080⟩
      (SplitWorld.mk true ["v_part000.mp4", "v_part001.mp4"] (fun _ => some 7))
      [⟨"v_part000.mp4", 1, 7⟩, ⟨"v_part001.mp4", 2, 7⟩] (fun f _ => rfl) rfl⟩

/-! ### C2: injectivity of the decimal scratch-directory name -/

/-- Nat.digitChar is injective on single digits. -/
lemma digitChar_inj_lt (a b : ℕ) (ha : a < 10) (hb : b < 10)
    (h : Nat.digitChar a = Nat.digitChar b) : a = b := by
  interval_cases a <;> interval_cases b <;> revert h <;> decide

/-- Nat.digitChar of a single digit is never the minus sign. -/
lemma digitChar_ne_dash (a : ℕ) (ha : a < 10) : Nat.digitChar a ≠ '-' := by
  interval_cases a <;> decide

/-- If the digit characters of n are the single character 0 then n is 0. -/
lemma map_digitChar_eq_zero_char {n : ℕ}
    (h : (Nat.digits 10 n).map Nat.digitChar = ['0']) : n = 0 := by
  cases hd : Nat.digits 10 n with
  | nil => rw [hd] at h; simp at h
  | cons d rest =>
    rw [hd] at h
    simp only [List.map_cons, List.cons.injEq] at h
    have hrest : rest = [] := List.map_eq_nil.mp h.2
    have hdlt : d < 10 := Nat.digits_lt_base (by norm_num) (by rw [hd]; exact List.mem_cons_self d rest)
    have hd0 : d = 0 := digitChar_inj_lt d 0 hdlt (by norm_num) (by rw [h.1]; rfl)
    have hofd := Nat.ofDigits_digits 10 n
    rw [hd, hrest, hd0] at hofd
    simpa [Nat.ofDigits] using hofd.symm

/-- Mapping Nat.digitChar over lists of single digits is injective. -/
lemma map_digitChar_inj_lists :
    ∀ (l₁ l₂ : List ℕ), (∀ x ∈ l₁, x < 10) → (∀ x ∈ l₂, x < 10) →
      l₁.map Nat.digitChar = l₂.map Nat.digitChar → l₁ = l₂ := by
  intro l₁
  induction l₁ with
  | nil => intro l₂ _ _ h; cases l₂ <;> simp_all
  | cons a l ih =>
    intro l₂ h₁ h₂ h
    cases l₂ with
    | nil => simp_all
    | cons b l₂t =>
      simp only [List.map_cons, List.cons.injEq] at h
      have hab : a = b :=
        digitChar_inj_lt a b (h₁ a (by simp)) (h₂ b (by simp)) h.1
      have htl : l = l₂t :=
        ih l₂t (fun x hx => h₁ x (by simp [hx])) (fun x hx => h₂ x (by simp [hx])) h.2
      rw [hab, htl]

/-- The decimal character representation of a natural number is injective. -/
lemma natDecimalChars_inj (m n : ℕ) (h : natDecimalChars m = natDecimalChars n) : m = n := by
  unfold natDecimalChars at h
  by_cases hm : m = 0 <;> by_cases hn : n = 0
  · omega
  · rw [if_pos hm, if_neg hn] at h
    have h' : (Nat.digits 10 n).map Nat.digitChar = ['0'] := by
      have := congrArg List.reverse h
      simpa using this.symm
    exact absurd (map_digitChar_eq_zero_char h') hn
  · rw [if_neg hm, if_pos hn] at h
    have h' : (Nat.digits 10 m).map Nat.digitChar = ['0'] := by
      have := congrArg List.reverse h
      simpa using this
    exact absurd (map_digitChar_eq_zero_char h') hm
  · rw [if_neg hm, if_neg hn] at h
    have h' : (Nat.digits 10 m).map Nat.digitChar = (Nat.digits 10 n).map Nat.digitChar :=
      List.reverse_injective h
    have hdig : Nat.digits 10 m = Nat.digits 10 n :=
      map_digitChar_inj_lists _ _
        (fun x hx => Nat.digits_lt_base (by norm_num) hx)
        (fun x hx => Nat.digits_lt_base (by norm_num) hx) h'
    exact Nat.digits.injective 10 hdig

/-- Every character of a decimal representation is a digit, never the minus
sign. -/
lemma natDecimalChars_ne_dash (n : ℕ) (c : Char) (hc : c ∈ natDecimalChars n) : c ≠ '-' := by
  unfold natDecimalChars at hc
  split at hc
  · simp at hc
    rw [hc]
    decide
  · rw [List.mem_reverse] at hc
    obtain ⟨d, hd, hdc⟩ := List.mem_map.mp hc
    rw [← hdc]
    exact digitChar_ne_dash d (Nat.digits_lt_base (by norm_num) hd)

/-- The Sprintf decimal rendering of an int64 is injective. -/
lemma intDecimalStr_inj (s t : ℤ) (h : intDecimalStr s = intDecimalStr t) : s = t := by
  unfold intDecimalStr at h
  by_cases hs : s < 0 <;> by_cases ht : t < 0
  · rw [if_pos hs, if_pos ht] at h
    injection h with hdata
    injection hdata with _ htail
    have := natDecimalChars_inj _ _ htail
    omega
  · rw [if_pos hs, if_neg ht] at h
    injection h with hdata
    have hmem : '-' ∈ natDecimalChars t.natAbs := by
      rw [← hdata]
      exact List.mem_cons_self _ _
    exact absurd rfl (natDecimalChars_ne_dash _ _ hmem)
  · rw [if_neg hs, if_pos ht] at h
    injection h with hdata
    have hmem : '-' ∈ natDecimalChars s.natAbs := by
      rw [hdata]
      exact List.mem_cons_self _ _
    exact absurd rfl (natDecimalChars_ne_dash _ _ hmem)
  · rw [if_neg hs, if_neg ht] at h
    injection h with hdata
    have := natDecimalChars_inj _ _ hdata
    omega

/-! ### C2 -/

/-- C2 as stated is violated: the scratch directory name is a pure function
of the observed nanosecond timestamp, so two distinct concurrent jobs that
read the same clock value receive the same directory, and MkdirAll does not
fail on an existing directory, so the collision goes undetected. -/
theorem C2_counterexample :
    jobWorkDir ⟨1700000000000000000, 0⟩ = jobWorkDir ⟨1700000000000000000, 1⟩ ∧
      (⟨1700000000000000000, 0⟩ : JobStart) ≠ (⟨1700000000000000000, 1⟩ : JobStart) :=
  ⟨rfl, by decide⟩

/-- C2 amended: two jobs that observe distinct start timestamps always get
distinct scratch directories, because the decimal rendering of the
nanosecond timestamp is injective; uniqueness holds only up to the
granularity of the observed clock value. -/
theorem C2_distinct_timestamps (t₁ t₂ : ℤ) (h : t₁ ≠ t₂) : workDir t₁ ≠ workDir t₂ := by
  intro heq
  apply h
  apply intDecimalStr_inj
  unfold workDir at heq
  have hd := congrArg String.data heq
  rw [String.data_append, String.data_append] at hd
  exact String.ext (List.append_cancel_left hd)

/-- Witness for the amended C2 at timestamps 1 and 2. -/
theorem C2_witness : (1 : ℤ) ≠ 2 ∧ workDir 1 ≠ workDir 2 :=
  ⟨by decide, C2_distinct_timestamps 1 2 (by decide)⟩
